import Mathlib

/-!
Shallow embedding of `src/printables_downloader/downloader.py` (a small
sequential download pipeline) and proofs about it.

Modelling conventions:
* Python strings are Lean `String`s; per-character operations are written over
  `String.data` (a `List Char`) so that list lemmas apply.  `str.lower()` is
  modelled with `Char.toLower` per character (the file names and extensions in
  play are ASCII), and `str.endswith(t)` as "the characters of `t` are a suffix
  of the characters of `s`".
* I/O is abstracted by explicit oracles: a predicate `fs` for
  `os.path.exists`, a `resolver` function for the GraphQL link-resolution call
  (which can raise a transport error, modelled as `Except.error ()`), and a
  per-attempt `oracle` describing how each network GET / file write inside
  `download_file` behaves.
* Side effects are reified as an event trace (`FEvent` for the fetcher,
  `OEvent` for the orchestrator), in the order the Python code performs them.
* Exceptions of the Python code are modelled with `Except`; JSON subscripting
  `d[k]` raises `KeyError` / `TypeError` exactly when the Python would.
-/

namespace PrintablesDownloader

/-- The constant `INVALID_WINDOWS_CHARS = '<>:"/\\|?*'` from the source. -/
def INVALID_WINDOWS_CHARS : String := "<>:\"/\\|?*"

/-- The function `sanitize_filename`: `"".join(c if c not in INVALID_WINDOWS_CHARS else "_" for c in name)`. -/
def sanitize_filename (name : String) : String :=
  String.mk (name.data.map (fun c => if c ∈ INVALID_WINDOWS_CHARS.data then '_' else c))

/-- Python `str.lower()`, per character (ASCII range, as in the file names in play). -/
def pyLower (s : String) : String :=
  String.mk (s.data.map Char.toLower)

/-- Python `s.endswith(t)`: the characters of `t` are a suffix of those of `s`. -/
def pyEndsWith (s t : String) : Bool :=
  t.data.isSuffixOf s.data

/-- One entry of the model's `stls` list: `{id, name, folder}`.  The Python code
reads `f["name"]` and `f["id"]` directly (assumed present) and
`f.get("folder", "")`, so `folder` is optional here. -/
structure FileDesc where
  id : String
  name : String
  folder : Option String
deriving Repr, DecidableEq

/-- The part of the decoded page JSON that `download_model_files` reads:
`data["data"]["model"]["id"]` and `data["data"]["model"].get("stls", [])`. -/
structure ModelData where
  modelId : String
  stls : List FileDesc
deriving Repr, DecidableEq

/-- The `.stl` fallback plus the list actually used for filtering
(lines 123-127 of the source):

```
if ".3mf" in extensions and not any(f["name"].lower().endswith(".3mf") for f in stls):
    if ".stl" not in extensions:
        extensions.append(".stl")
```

Since `append` mutates the caller's list, the returned value is also the
content of the caller's `extensions` list after the call. -/
def effectiveExtensions (extensions : List String) (stls : List FileDesc) : List String :=
  if extensions.contains ".3mf"
      && !(stls.any (fun f => pyEndsWith (pyLower f.name) ".3mf")) then
    if !(extensions.contains ".stl") then extensions ++ [".stl"] else extensions
  else extensions

/-- The filter (line 129): `[f for f in stls if f["name"].lower().endswith(tuple(extensions))]`.
Python's `endswith` with a tuple succeeds when any member matches (and an empty
tuple matches nothing, as does `List.any` on `[]`). -/
def selectedFiles (extensions : List String) (stls : List FileDesc) : List FileDesc :=
  stls.filter (fun f => extensions.any (fun e => pyEndsWith (pyLower f.name) e))

/-- Python `os.path.join` for two components on a POSIX system: an absolute second
component replaces the first, an empty second component leaves a trailing
separator, otherwise the parts are joined with `/` (not duplicated). -/
def ospJoin (a b : String) : String :=
  if b.data.head? = some '/' then b
  else if a = "" then b
  else if a.data.getLast? = some '/' then a ++ b
  else a ++ "/" ++ b

/-- The folder `save_dir = os.path.join(output_root, sanitize_filename(file.get("folder", "")))`. -/
def dirPath (output_root : String) (f : FileDesc) : String :=
  ospJoin output_root (sanitize_filename (f.folder.getD ""))

/-- The destination `save_path = os.path.join(save_dir, sanitize_filename(file["name"]))`. -/
def filePath (output_root : String) (f : FileDesc) : String :=
  ospJoin (dirPath output_root f) (sanitize_filename f.name)

/-- Observable side effects of one `download_file` call:
a streaming GET on the network, a write (create/truncate) of the destination
file, the fixed 1-second sleep between attempts, and the dry-run message
(`"Would download ..."`), which touches neither network nor disk. -/
inductive FEvent where
  | netGet
  | fileWrite (path : String)
  | sleep
  | dryRunWould (path : String)
deriving Repr, DecidableEq

/-- How one attempt of the `download_file` retry loop behaves, from the
outside: whether `SESSION.get` raises, whether the response status is ok
(`resp.ok`), and whether writing the body raises midway.  All three failure
modes are caught by the code (the `else` branch or the `except Exception`). -/
structure AttemptBehavior where
  getRaises : Bool
  respOk : Bool
  writeRaises : Bool
deriving Repr, DecidableEq

/-- An attempt succeeds iff the GET returns, the status is a success and the
write completes without raising. -/
def attemptSuccess (a : AttemptBehavior) : Bool :=
  !a.getRaises && a.respOk && !a.writeRaises

/-- The effects of one attempt: the GET always happens; the destination file
is opened (written, possibly partially) only when the status was ok. -/
def attemptEvents (a : AttemptBehavior) (save_path : String) : List FEvent :=
  if a.getRaises then [FEvent.netGet]
  else if !a.respOk then [FEvent.netGet]
  else [FEvent.netGet, FEvent.fileWrite save_path]

/-- The retry loop `for attempt in range(3)` of `download_file`, with `fuel`
attempts left and `i` the index of the next attempt.  Returns the boolean
result, the number of attempts made, and the trace.  After every failed
attempt the code sleeps 1 second (also after the last one, before giving up). -/
def dfAttempts (oracle : Nat → AttemptBehavior) (save_path : String) :
    Nat → Nat → Bool × Nat × List FEvent
  | _, 0 => (false, 0, [])
  | i, fuel + 1 =>
    let a := oracle i
    if attemptSuccess a then (true, 1, attemptEvents a save_path)
    else
      let r := dfAttempts oracle save_path (i + 1) fuel
      (r.1, r.2.1 + 1, attemptEvents a save_path ++ FEvent.sleep :: r.2.2)

/-- The fetcher `download_file(url, save_path, file_name, dry_run, verbose)`: in a dry run
it prints the "Would download" message and returns `True` at once; otherwise it
runs the retry loop with 3 attempts.  The network behaviour is abstracted by
`oracle` (the URL itself carries no information in the model). -/
def download_file (dry_run : Bool) (oracle : Nat → AttemptBehavior)
    (save_path : String) : Bool × Nat × List FEvent :=
  if dry_run then (true, 0, [FEvent.dryRunWould save_path])
  else dfAttempts oracle save_path 0 3

/-- Observable steps of `download_model_files`, in program order:
`os.makedirs(save_dir, exist_ok=True)`, the "Already downloaded" skip message,
the `graphql_download_url` call for a file id, the "No link" message, the
"Could not download" message, and the events of an inner `download_file` call. -/
inductive OEvent where
  | mkdirs (dir : String)
  | alreadyDownloaded (path : String)
  | resolveCall (fileId : String)
  | noLink (name : String)
  | couldNotDownload (name : String)
  | fetch (e : FEvent)
deriving Repr, DecidableEq

/-- The first loop of `download_model_files` (lines 131-143): for each selected
file it computes the sanitized destination, always calls `os.makedirs`, and
either skips the file (destination exists and not a dry run) or keeps the pair
`(file, save_path)` for the second loop.  `fs` models `os.path.exists`. -/
def planFiles (fs : String → Bool) (output_root : String) (dry_run : Bool) :
    List FileDesc → List (FileDesc × String) × List OEvent
  | [] => ([], [])
  | f :: rest =>
    let path := filePath output_root f
    let r := planFiles fs output_root dry_run rest
    if fs path && !dry_run then
      (r.1, OEvent.mkdirs (dirPath output_root f) :: OEvent.alreadyDownloaded path :: r.2)
    else
      ((f, path) :: r.1, OEvent.mkdirs (dirPath output_root f) :: r.2)

/-- The second loop of `download_model_files` (lines 145-158): for each kept
file, call the Link Resolver; on `None` print "No link" and continue; on a URL
run `download_file` and print "Could not download" if it failed.  A transport
error raised by the resolver (`Except.error ()`) propagates and aborts the
loop (second component `true`). -/
def fetchLoop (resolver : String → Except Unit (Option String))
    (oracle : String → Nat → AttemptBehavior) (dry_run : Bool) :
    List (FileDesc × String) → List OEvent × Bool
  | [] => ([], false)
  | p :: rest =>
    match resolver p.1.id with
    | Except.error _ => ([OEvent.resolveCall p.1.id], true)
    | Except.ok none =>
      let r := fetchLoop resolver oracle dry_run rest
      (OEvent.resolveCall p.1.id :: OEvent.noLink p.1.name :: r.1, r.2)
    | Except.ok (some _) =>
      let d := download_file dry_run (oracle p.1.id) p.2
      let r := fetchLoop resolver oracle dry_run rest
      (OEvent.resolveCall p.1.id ::
        (d.2.2.map OEvent.fetch
          ++ (if d.1 then [] else [OEvent.couldNotDownload p.1.name])
          ++ r.1),
       r.2)

/-- Result of one `download_model_files` run: the content of the caller's
`extensions` list after the call (the code may have appended `".stl"` to it in
place), the event trace, and whether the run was aborted by a resolver
exception. -/
structure RunResult where
  finalExtensions : List String
  events : List OEvent
  aborted : Bool
deriving Repr, DecidableEq

/-- The orchestrator `download_model_files(data, output_root, extensions, dry_run, verbose)`:
apply the `.stl` fallback, filter by extension, plan (first loop), then
resolve-and-fetch (second loop). -/
def download_model_files (fs : String → Bool)
    (resolver : String → Except Unit (Option String))
    (oracle : String → Nat → AttemptBehavior)
    (data : ModelData) (output_root : String) (extensions : List String)
    (dry_run : Bool) : RunResult :=
  let exts := effectiveExtensions extensions data.stls
  let files := selectedFiles exts data.stls
  let plan := planFiles fs output_root dry_run files
  let fetched := fetchLoop resolver oracle dry_run plan.1
  ⟨exts, plan.2 ++ fetched.1, fetched.2⟩

/-- Python exceptions that `graphql_download_url` can produce:
a transport failure of the POST itself (`requests.ConnectionError` etc.),
the `HTTPError` raised by `r.raise_for_status()`, a `KeyError` from `d[k]` on a
dict missing `k`, and a `TypeError` from subscripting a non-dict. -/
inductive PyErr where
  | connectionError
  | httpError
  | keyError
  | typeError
deriving Repr, DecidableEq

/-- JSON values, as decoded by `r.json()`. -/
inductive Json where
  | null
  | bool (b : Bool)
  | num (n : Int)
  | str (s : String)
  | arr (elems : List Json)
  | obj (fields : List (String × Json))

/-- Python subscripting `j[k]`: a `KeyError` on a dict without the key, a
`TypeError` on anything that is not a dict. -/
def Json.getItem (j : Json) (k : String) : Except PyErr Json :=
  match j with
  | Json.obj fields =>
    match fields.find? (fun p => p.1 == k) with
    | some p => Except.ok p.2
    | none => Except.error PyErr.keyError
  | _ => Except.error PyErr.typeError

/-- Python truthiness of a JSON value (`if data[...]["ok"]:`). -/
def Json.truthy : Json → Bool
  | Json.null => false
  | Json.bool b => b
  | Json.num n => !(n == 0)
  | Json.str s => !(s == "")
  | Json.arr elems => !elems.isEmpty
  | Json.obj fields => !fields.isEmpty

/-- The POST's response: its status (`r.ok`, i.e. code < 400) and the decoded
body (`r.json()`; the claims at hand do not concern bodies that fail to
parse, so the body is taken to be JSON). -/
structure HttpResp where
  ok : Bool
  body : Json

/-- A well-shaped resolver response body:
`{"data": {"getDownloadLink": { ...fields... }}}`. -/
def dlResponse (fields : List (String × Json)) : Json :=
  Json.obj [("data", Json.obj [("getDownloadLink", Json.obj fields)])]

/-- The resolver `graphql_download_url(file_id, model_id)` with the network abstracted:
`post` is the outcome of `SESSION.post(...)` (a raised transport error
propagates).  Then the code does `r.raise_for_status()`, reads
`data["data"]["getDownloadLink"]["ok"]`, and if that is truthy returns
`data["data"]["getDownloadLink"]["output"]["link"]`; otherwise it returns
`None`.  Each subscript can raise, and such exceptions propagate. -/
def graphql_download_url (post : Except PyErr HttpResp) :
    Except PyErr (Option Json) := do
  let r ← post
  if !r.ok then
    throw PyErr.httpError
  else
    let d ← r.body.getItem "data"
    let dl ← d.getItem "getDownloadLink"
    let okv ← dl.getItem "ok"
    if okv.truthy then
      let out ← dl.getItem "output"
      let link ← out.getItem "link"
      pure (some link)
    else
      pure none

end PrintablesDownloader

namespace PrintablesDownloader

/-- Order on `UInt32` is the order of the underlying numbers. -/
theorem uint32_le_iff (a b : UInt32) : a ≤ b ↔ a.toNat ≤ b.toNat := by
  rw [UInt32.le_def, BitVec.le_def]
  rfl

/-- Applying `Char.ofNat` to a valid scalar value round-trips through `toNat`. -/
theorem char_toNat_ofNat {n : Nat} (h : n.isValidChar) : (Char.ofNat n).toNat = n := by
  unfold Char.ofNat
  rw [dif_pos h]
  rfl

/-- Lowercasing a character never yields an ASCII uppercase letter. -/
theorem toLower_isUpper_false (c : Char) : (Char.toLower c).isUpper = false := by
  unfold Char.toLower Char.isUpper
  by_cases h : c.toNat ≥ 65 ∧ c.toNat ≤ 90
  · rw [if_pos h]
    have hv : (c.toNat + 32).isValidChar := Or.inl (by omega)
    have ht : (Char.ofNat (c.toNat + 32)).toNat = c.toNat + 32 := char_toNat_ofNat hv
    simp only [Bool.and_eq_false_iff, decide_eq_false_iff_not]
    right
    intro hle
    rw [uint32_le_iff] at hle
    have h90 : (90 : UInt32).toNat = 90 := rfl
    rw [h90] at hle
    have hval : (Char.ofNat (c.toNat + 32)).val.toNat = c.toNat + 32 := ht
    omega
  · rw [if_neg h]
    simp only [Bool.and_eq_false_iff, decide_eq_false_iff_not]
    by_cases h65 : c.toNat ≥ 65
    · right
      intro hle
      rw [uint32_le_iff] at hle
      have h90 : (90 : UInt32).toNat = 90 := rfl
      rw [h90] at hle
      exact h ⟨h65, hle⟩
    · left
      intro hge
      rw [GE.ge, uint32_le_iff] at hge
      have h65' : (65 : UInt32).toNat = 65 := rfl
      rw [h65'] at hge
      exact h65 hge

/-- C8, part of the proof: the replacement character is itself allowed. -/
theorem underscore_not_invalid : '_' ∉ INVALID_WINDOWS_CHARS.data := by decide

/-- C8: for every string, `sanitize_filename` returns a string of the same
length containing none of the disallowed characters `<>:"/\|?*`; every
disallowed character is replaced one-for-one (position by position) by `'_'`
and every other character is preserved in place. -/
theorem sanitize_filename_c8 (s : String) :
    (sanitize_filename s).length = s.length ∧
    (∀ c, c ∈ (sanitize_filename s).data → c ∉ INVALID_WINDOWS_CHARS.data) ∧
    (∀ i : Nat, (sanitize_filename s).data[i]? =
      (s.data[i]?).map (fun c => if c ∈ INVALID_WINDOWS_CHARS.data then '_' else c)) := by
  refine ⟨?_, ?_, ?_⟩
  · cases s with
    | mk data =>
      show (data.map _).length = data.length
      exact List.length_map data _
  · intro c hc
    simp only [sanitize_filename, List.mem_map] at hc
    obtain ⟨d, _, hd⟩ := hc
    by_cases hmem : d ∈ INVALID_WINDOWS_CHARS.data
    · rw [if_pos hmem] at hd
      subst hd
      exact underscore_not_invalid
    · rw [if_neg hmem] at hd
      subst hd
      exact hmem
  · intro i
    cases s with
    | mk data =>
      show (data.map _)[i]? = (data[i]?).map _
      exact List.getElem?_map _ data i

/-- Witness for C8: instantiates the theorem at `"a<b"` and discharges the
membership hypothesis of its second conjunct at the character `'a'`. -/
theorem sanitize_filename_c8_witness : 'a' ∉ INVALID_WINDOWS_CHARS.data :=
  (sanitize_filename_c8 "a<b").2.1 'a' (by decide)

/-- C9: `sanitize_filename` is the identity on strings with no disallowed
character, and is idempotent on every string. -/
theorem sanitize_filename_c9 :
    (∀ s : String, (∀ c, c ∈ s.data → c ∉ INVALID_WINDOWS_CHARS.data) →
      sanitize_filename s = s) ∧
    (∀ s : String, sanitize_filename (sanitize_filename s) = sanitize_filename s) := by
  constructor
  · intro s hs
    cases s with
    | mk data =>
      simp only [sanitize_filename]
      congr 1
      have h : data.map (fun c => if c ∈ INVALID_WINDOWS_CHARS.data then '_' else c)
          = data.map id := by
        apply List.map_congr_left
        intro c hc
        rw [if_neg (hs c hc)]
        rfl
      simpa using h
  · intro s
    simp only [sanitize_filename]
    congr 1
    rw [List.map_map]
    apply List.map_congr_left
    intro c _
    simp only [Function.comp_apply]
    by_cases h : c ∈ INVALID_WINDOWS_CHARS.data
    · rw [if_pos h, if_neg underscore_not_invalid]
    · rw [if_neg h, if_neg h]

/-- Witness for C9: the identity part applied at the clean string `"abc"`. -/
theorem sanitize_filename_c9_witness : sanitize_filename "abc" = "abc" :=
  (sanitize_filename_c9).1 "abc" (by decide)

end PrintablesDownloader

namespace PrintablesDownloader

/-- The first loop keeps exactly the files whose destination does not exist
yet (all of them in a dry run), each paired with its destination path. -/
theorem planFiles_remaining (fs : String → Bool) (root : String) (dry : Bool)
    (files : List FileDesc) :
    (planFiles fs root dry files).1 =
      (files.filter (fun f => !(fs (filePath root f) && !dry))).map
        (fun f => (f, filePath root f)) := by
  induction files with
  | nil => rfl
  | cons f rest ih =>
    cases hc : fs (filePath root f) && !dry with
    | true =>
      simp only [planFiles, List.filter_cons, hc]
      simpa using ih
    | false =>
      simp only [planFiles, List.filter_cons, hc]
      simpa using ih

/-- Every event of the first loop is a `makedirs` call for a listed file's
folder, or an "Already downloaded" skip for an existing destination outside a
dry run. -/
theorem planFiles_event_cases (fs : String → Bool) (root : String) (dry : Bool)
    (files : List FileDesc) (ev : OEvent)
    (h : ev ∈ (planFiles fs root dry files).2) :
    (∃ f ∈ files, ev = OEvent.mkdirs (dirPath root f)) ∨
    (∃ f ∈ files, ev = OEvent.alreadyDownloaded (filePath root f) ∧
      fs (filePath root f) = true ∧ dry = false) := by
  induction files with
  | nil => cases h
  | cons f rest ih =>
    cases hc : fs (filePath root f) && !dry with
    | true =>
      simp [planFiles, hc] at h
      rcases h with h | h | h
      · exact Or.inl ⟨f, List.mem_cons_self f rest, h⟩
      · have hc' := hc
        rw [Bool.and_eq_true] at hc'
        have hdry : dry = false := by
          cases hd : dry
          · rfl
          · rw [hd] at hc'
            simp at hc'
        exact Or.inr ⟨f, List.mem_cons_self f rest, h, hc'.1, hdry⟩
      · rcases ih h with ⟨g, hg, hgev⟩ | ⟨g, hg, hgev⟩
        · exact Or.inl ⟨g, List.mem_cons_of_mem f hg, hgev⟩
        · exact Or.inr ⟨g, List.mem_cons_of_mem f hg, hgev⟩
    | false =>
      simp [planFiles, hc] at h
      rcases h with h | h
      · exact Or.inl ⟨f, List.mem_cons_self f rest, h⟩
      · rcases ih h with ⟨g, hg, hgev⟩ | ⟨g, hg, hgev⟩
        · exact Or.inl ⟨g, List.mem_cons_of_mem f hg, hgev⟩
        · exact Or.inr ⟨g, List.mem_cons_of_mem f hg, hgev⟩

/-- The first loop calls `os.makedirs` for every listed file. -/
theorem planFiles_mkdirs_mem (fs : String → Bool) (root : String) (dry : Bool)
    (files : List FileDesc) (f : FileDesc) (hf : f ∈ files) :
    OEvent.mkdirs (dirPath root f) ∈ (planFiles fs root dry files).2 := by
  induction files with
  | nil => cases hf
  | cons g rest ih =>
    rcases List.mem_cons.mp hf with h | h
    · subst h
      cases hfs : fs (filePath root f) <;> cases dry <;>
        simp [planFiles, hfs]
    · cases hfs : fs (filePath root g) <;> cases dry <;>
        simp [planFiles, hfs, ih h]

/-- Outside a dry run, the first loop prints "Already downloaded" for every
listed file whose destination exists. -/
theorem planFiles_skip_mem (fs : String → Bool) (root : String)
    (files : List FileDesc) (f : FileDesc) (hf : f ∈ files)
    (hex : fs (filePath root f) = true) :
    OEvent.alreadyDownloaded (filePath root f) ∈ (planFiles fs root false files).2 := by
  induction files with
  | nil => cases hf
  | cons g rest ih =>
    rcases List.mem_cons.mp hf with h | h
    · subst h
      simp [planFiles, hex]
    · cases hfs : fs (filePath root g) <;>
        simp [planFiles, hfs, ih h]

end PrintablesDownloader

namespace PrintablesDownloader

/-- Every event of the second loop is a resolver call, a "No link" message, a
"Could not download" message, or an effect of the `download_file` call for one
of the kept files. -/
theorem fetchLoop_event_cases (resolver : String → Except Unit (Option String))
    (oracle : String → Nat → AttemptBehavior) (dry : Bool)
    (rem : List (FileDesc × String)) (ev : OEvent)
    (h : ev ∈ (fetchLoop resolver oracle dry rem).1) :
    (∃ p ∈ rem, ev = OEvent.resolveCall p.1.id) ∨
    (∃ p ∈ rem, ev = OEvent.noLink p.1.name) ∨
    (∃ p ∈ rem, ev = OEvent.couldNotDownload p.1.name) ∨
    (∃ p ∈ rem, ∃ fe ∈ (download_file dry (oracle p.1.id) p.2).2.2,
      ev = OEvent.fetch fe) := by
  induction rem with
  | nil => cases h
  | cons q rest ih =>
    have lift :
        (∃ p ∈ rest, ev = OEvent.resolveCall p.1.id) ∨
        (∃ p ∈ rest, ev = OEvent.noLink p.1.name) ∨
        (∃ p ∈ rest, ev = OEvent.couldNotDownload p.1.name) ∨
        (∃ p ∈ rest, ∃ fe ∈ (download_file dry (oracle p.1.id) p.2).2.2,
          ev = OEvent.fetch fe) →
        (∃ p ∈ q :: rest, ev = OEvent.resolveCall p.1.id) ∨
        (∃ p ∈ q :: rest, ev = OEvent.noLink p.1.name) ∨
        (∃ p ∈ q :: rest, ev = OEvent.couldNotDownload p.1.name) ∨
        (∃ p ∈ q :: rest, ∃ fe ∈ (download_file dry (oracle p.1.id) p.2).2.2,
          ev = OEvent.fetch fe) := by
      rintro (⟨p, hp, he⟩ | ⟨p, hp, he⟩ | ⟨p, hp, he⟩ | ⟨p, hp, he⟩)
      · exact Or.inl ⟨p, List.mem_cons_of_mem q hp, he⟩
      · exact Or.inr (Or.inl ⟨p, List.mem_cons_of_mem q hp, he⟩)
      · exact Or.inr (Or.inr (Or.inl ⟨p, List.mem_cons_of_mem q hp, he⟩))
      · exact Or.inr (Or.inr (Or.inr ⟨p, List.mem_cons_of_mem q hp, he⟩))
    cases hq : resolver q.1.id with
    | error e =>
      simp [fetchLoop, hq] at h
      exact Or.inl ⟨q, List.mem_cons_self q rest, h⟩
    | ok v =>
      cases v with
      | none =>
        simp [fetchLoop, hq] at h
        rcases h with h | h | h
        · exact Or.inl ⟨q, List.mem_cons_self q rest, h⟩
        · exact Or.inr (Or.inl ⟨q, List.mem_cons_self q rest, h⟩)
        · exact lift (ih h)
      | some url =>
        simp only [fetchLoop, hq] at h
        rcases List.mem_cons.mp h with h | h
        · exact Or.inl ⟨q, List.mem_cons_self q rest, h⟩
        · rcases List.mem_append.mp h with h | h
          · rcases List.mem_append.mp h with h | h
            · rcases List.mem_map.mp h with ⟨fe, hfe, he⟩
              exact Or.inr (Or.inr (Or.inr
                ⟨q, List.mem_cons_self q rest, fe, hfe, he.symm⟩))
            · by_cases hd : (download_file dry (oracle q.1.id) q.2).1 = true
              · rw [if_pos hd] at h
                cases h
              · rw [if_neg hd] at h
                rcases List.mem_singleton.mp h with h
                exact Or.inr (Or.inr (Or.inl ⟨q, List.mem_cons_self q rest, h⟩))
          · exact lift (ih h)

end PrintablesDownloader

namespace PrintablesDownloader

/-- When the resolver raises on no kept file, the second loop runs to
completion: it calls the resolver for every kept file; it prints "No link"
for every file whose link is unavailable; and for every file with a link it
performs the `download_file` effects and prints "Could not download" when that
call failed. -/
theorem fetchLoop_complete (resolver : String → Except Unit (Option String))
    (oracle : String → Nat → AttemptBehavior) (dry : Bool)
    (rem : List (FileDesc × String))
    (hok : ∀ p ∈ rem, resolver p.1.id ≠ Except.error ()) :
    (fetchLoop resolver oracle dry rem).2 = false ∧
    ∀ p ∈ rem,
      OEvent.resolveCall p.1.id ∈ (fetchLoop resolver oracle dry rem).1 ∧
      (resolver p.1.id = Except.ok none →
        OEvent.noLink p.1.name ∈ (fetchLoop resolver oracle dry rem).1) ∧
      (∀ url, resolver p.1.id = Except.ok (some url) →
        (∀ fe ∈ (download_file dry (oracle p.1.id) p.2).2.2,
          OEvent.fetch fe ∈ (fetchLoop resolver oracle dry rem).1) ∧
        ((download_file dry (oracle p.1.id) p.2).1 = false →
          OEvent.couldNotDownload p.1.name ∈ (fetchLoop resolver oracle dry rem).1)) := by
  induction rem with
  | nil => exact ⟨rfl, fun p hp => absurd hp (List.not_mem_nil p)⟩
  | cons q rest ih =>
    have hokrest : ∀ p ∈ rest, resolver p.1.id ≠ Except.error () :=
      fun p hp => hok p (List.mem_cons_of_mem q hp)
    have ihr := ih hokrest
    cases hq : resolver q.1.id with
    | error e =>
      cases e
      exact absurd hq (hok q (List.mem_cons_self q rest))
    | ok v =>
      cases v with
      | none =>
        refine ⟨?_, ?_⟩
        · simp [fetchLoop, hq, ihr.1]
        · intro p hp
          rcases List.mem_cons.mp hp with hpq | hpr
          · subst hpq
            refine ⟨?_, ?_, ?_⟩
            · simp [fetchLoop, hq]
            · intro _
              simp [fetchLoop, hq]
            · intro url hurl
              rw [hq] at hurl
              cases hurl
          · have hres := ihr.2 p hpr
            refine ⟨?_, ?_, ?_⟩
            · simp [fetchLoop, hq, hres.1]
            · intro hnone
              simp [fetchLoop, hq, hres.2.1 hnone]
            · intro url hurl
              have hfe := hres.2.2 url hurl
              constructor
              · intro fe hfemem
                simp [fetchLoop, hq, hfe.1 fe hfemem]
              · intro hfail
                simp [fetchLoop, hq, hfe.2 hfail]
      | some url =>
        refine ⟨?_, ?_⟩
        · simp [fetchLoop, hq, ihr.1]
        · intro p hp
          rcases List.mem_cons.mp hp with hpq | hpr
          · subst hpq
            refine ⟨?_, ?_, ?_⟩
            · simp [fetchLoop, hq]
            · intro hnone
              rw [hq] at hnone
              cases hnone
            · intro url2 hurl2
              constructor
              · intro fe hfemem
                simp only [fetchLoop, hq, List.mem_cons]
                right
                exact List.mem_append_left _
                  (List.mem_append_left _ (List.mem_map_of_mem OEvent.fetch hfemem))
              · intro hfail
                simp only [fetchLoop, hq, List.mem_cons]
                right
                refine List.mem_append_left _ (List.mem_append_right _ ?_)
                rw [if_neg ?_]
                · exact List.mem_singleton.mpr rfl
                · rw [hfail]
                  exact Bool.false_ne_true
          · have hres := ihr.2 p hpr
            refine ⟨?_, ?_, ?_⟩
            · simp only [fetchLoop, hq, List.mem_cons]
              right
              exact List.mem_append_right _ (hres.1)
            · intro hnone
              simp only [fetchLoop, hq, List.mem_cons]
              right
              exact List.mem_append_right _ (hres.2.1 hnone)
            · intro url2 hurl2
              have hfe := hres.2.2 url2 hurl2
              constructor
              · intro fe hfemem
                simp only [fetchLoop, hq, List.mem_cons]
                right
                exact List.mem_append_right _ (hfe.1 fe hfemem)
              · intro hfail
                simp only [fetchLoop, hq, List.mem_cons]
                right
                exact List.mem_append_right _ (hfe.2 hfail)

end PrintablesDownloader

namespace PrintablesDownloader

/-- If every attempt the loop can reach fails, the loop returns `false` after
using its whole budget of attempts. -/
theorem dfAttempts_all_fail (oracle : Nat → AttemptBehavior) (save_path : String)
    (i fuel : Nat) (h : ∀ j, j < fuel → attemptSuccess (oracle (i + j)) = false) :
    (dfAttempts oracle save_path i fuel).1 = false ∧
    (dfAttempts oracle save_path i fuel).2.1 = fuel := by
  induction fuel generalizing i with
  | zero => exact ⟨rfl, rfl⟩
  | succ fuel ih =>
    have h0 : attemptSuccess (oracle i) = false := by
      have := h 0 (Nat.succ_pos fuel)
      simpa using this
    have hrest : ∀ j, j < fuel → attemptSuccess (oracle (i + 1 + j)) = false := by
      intro j hj
      have := h (j + 1) (Nat.succ_lt_succ hj)
      rw [show i + 1 + j = i + (j + 1) by omega]
      exact this
    have ihr := ih (i + 1) hrest
    simp only [dfAttempts, h0]
    simp [ihr.1, ihr.2]

/-- If the first `k` attempts fail and attempt `k` succeeds (within budget),
the loop returns `true` after exactly `k + 1` attempts. -/
theorem dfAttempts_first_success (oracle : Nat → AttemptBehavior)
    (save_path : String) (i fuel k : Nat) (hk : k < fuel)
    (hbefore : ∀ j, j < k → attemptSuccess (oracle (i + j)) = false)
    (hsucc : attemptSuccess (oracle (i + k)) = true) :
    (dfAttempts oracle save_path i fuel).1 = true ∧
    (dfAttempts oracle save_path i fuel).2.1 = k + 1 := by
  induction fuel generalizing i k with
  | zero => omega
  | succ fuel ih =>
    cases k with
    | zero =>
      have h0 : attemptSuccess (oracle i) = true := by simpa using hsucc
      simp [dfAttempts, h0]
    | succ k =>
      have h0 : attemptSuccess (oracle i) = false := by
        have := hbefore 0 (Nat.succ_pos k)
        simpa using this
      have hbefore' : ∀ j, j < k → attemptSuccess (oracle (i + 1 + j)) = false := by
        intro j hj
        have := hbefore (j + 1) (Nat.succ_lt_succ hj)
        rw [show i + 1 + j = i + (j + 1) by omega]
        exact this
      have hsucc' : attemptSuccess (oracle (i + 1 + k)) = true := by
        rw [show i + 1 + k = i + (k + 1) by omega]
        exact hsucc
      have ihr := ih (i + 1) k (Nat.lt_of_succ_lt_succ hk) hbefore' hsucc'
      simp only [dfAttempts, h0]
      simp [ihr.1, ihr.2]

end PrintablesDownloader

namespace PrintablesDownloader

/-- Membership view of `List.contains` on strings. -/
theorem contains_iff (l : List String) (a : String) : l.contains a = true ↔ a ∈ l :=
  List.elem_iff

/-- C1 counterexample: with the single model file `a.3mf` and the request
`[".3MF"]`, a case-insensitive ending match holds (lowercasing both sides
matches), yet the orchestrator's filter selects nothing: line 129 lowercases
only the file's name and compares it with the extension verbatim, so an
extension written in upper case matches no file. -/
theorem c1_counterexample :
    selectedFiles (effectiveExtensions [".3MF"] [⟨"1", "a.3mf", none⟩])
        [⟨"1", "a.3mf", none⟩] = [] ∧
    pyEndsWith (pyLower "a.3mf") (pyLower ".3MF") = true := by
  decide

/-- C1 amended: `download_model_files` filters with the effective extension
list (the requested list plus the `.stl` fallback when it fires) and selects
exactly those files whose lowercased name ends with one of those extensions
taken verbatim; only the file name is lowercased, so an extension containing
an ASCII uppercase letter can never match. -/
theorem selectedFiles_c1_amended (extensions : List String)
    (stls : List FileDesc) (f : FileDesc) :
    (f ∈ selectedFiles (effectiveExtensions extensions stls) stls ↔
      f ∈ stls ∧ ∃ e ∈ effectiveExtensions extensions stls,
        pyEndsWith (pyLower f.name) e = true) ∧
    (∀ e : String, (∃ c ∈ e.data, c.isUpper = true) →
      pyEndsWith (pyLower f.name) e = false) := by
  constructor
  · rw [selectedFiles, List.mem_filter]
    simp [List.any_eq_true]
  · rintro e ⟨c, hce, hcu⟩
    by_contra hne
    rw [Bool.not_eq_false, pyEndsWith] at hne
    have hsuf : e.data <:+ (pyLower f.name).data := List.isSuffixOf_iff_suffix.mp hne
    have hmem : c ∈ f.name.data.map Char.toLower := hsuf.subset hce
    obtain ⟨d, _, hd⟩ := List.mem_map.mp hmem
    rw [← hd, toLower_isUpper_false] at hcu
    exact Bool.false_ne_true hcu

/-- Witness for the amended C1, discharging its hypotheses at concrete input:
the lowered name `a.3mf` does not end with the uppercase extension `.3MF`. -/
theorem c1_amended_witness : pyEndsWith (pyLower "a.3mf") ".3MF" = false :=
  (selectedFiles_c1_amended [] [] ⟨"", "a.3mf", none⟩).2 ".3MF"
    ⟨'M', by decide, by decide⟩

/-- C2: the `.stl` fallback fires exactly when `.3mf` is requested (as the
literal string `".3mf"`), no file's name lowercases to something ending in
`.3mf`, and `.stl` is not already requested; in that case `".stl"` is appended,
in every other case the list used for filtering is the requested one. -/
theorem effectiveExtensions_c2 (extensions : List String) (stls : List FileDesc) :
    ((".3mf" ∈ extensions ∧
        (∀ f ∈ stls, pyEndsWith (pyLower f.name) ".3mf" = false) ∧
        ".stl" ∉ extensions) →
      effectiveExtensions extensions stls = extensions ++ [".stl"]) ∧
    ((".3mf" ∉ extensions ∨
        (∃ f ∈ stls, pyEndsWith (pyLower f.name) ".3mf" = true) ∨
        ".stl" ∈ extensions) →
      effectiveExtensions extensions stls = extensions) := by
  constructor
  · rintro ⟨h3, hno, hstl⟩
    have hc3 : extensions.contains ".3mf" = true := (contains_iff _ _).mpr h3
    have hany : (stls.any (fun f => pyEndsWith (pyLower f.name) ".3mf")) = false := by
      rw [← Bool.not_eq_true, List.any_eq_true]
      rintro ⟨f, hf, hp⟩
      rw [hno f hf] at hp
      exact Bool.false_ne_true hp
    have hcs : extensions.contains ".stl" = false := by
      rw [← Bool.not_eq_true, contains_iff]
      exact hstl
    rw [effectiveExtensions, hc3, hany, hcs]
    simp
  · intro h
    rw [effectiveExtensions]
    rcases h with h | h | h
    · have hc3 : extensions.contains ".3mf" = false := by
        rw [← Bool.not_eq_true, contains_iff]
        exact h
      rw [hc3]
      simp
    · have hany : (stls.any (fun f => pyEndsWith (pyLower f.name) ".3mf")) = true :=
        List.any_eq_true.mpr h
      rw [hany]
      simp
    · have hcs : extensions.contains ".stl" = true := (contains_iff _ _).mpr h
      rw [hcs]
      cases hc3 : extensions.contains ".3mf" <;>
        cases hany : stls.any (fun f => pyEndsWith (pyLower f.name) ".3mf") <;>
        simp

/-- Witness for C2 at concrete input: requesting `[".3mf"]` against a model
with a single `.stl` file yields the fallback list, and requesting it against
a model that does have a `.3mf` file leaves the list unchanged. -/
theorem effectiveExtensions_c2_witness :
    effectiveExtensions [".3mf"] [⟨"1", "b.stl", none⟩] = [".3mf", ".stl"] ∧
    effectiveExtensions [".3mf"] [⟨"1", "A.3MF", none⟩] = [".3mf"] :=
  ⟨(effectiveExtensions_c2 [".3mf"] [⟨"1", "b.stl", none⟩]).1
      ⟨by decide, by decide, by decide⟩,
   (effectiveExtensions_c2 [".3mf"] [⟨"1", "A.3MF", none⟩]).2
      (Or.inr (Or.inl ⟨⟨"1", "A.3MF", none⟩, by decide, by decide⟩))⟩

/-- C10: the content of the caller's `extensions` list after a run of
`download_model_files` (the code appends to that list in place) is the
requested list with `".stl"` appended exactly when the fallback fires, and the
requested list unchanged otherwise. -/
theorem download_model_files_c10 (fs : String → Bool)
    (resolver : String → Except Unit (Option String))
    (oracle : String → Nat → AttemptBehavior) (data : ModelData)
    (output_root : String) (extensions : List String) (dry_run : Bool) :
    (download_model_files fs resolver oracle data output_root extensions
        dry_run).finalExtensions =
      if extensions.contains ".3mf"
          && !(data.stls.any (fun f => pyEndsWith (pyLower f.name) ".3mf"))
          && !(extensions.contains ".stl")
      then extensions ++ [".stl"] else extensions := by
  show effectiveExtensions extensions data.stls = _
  rw [effectiveExtensions]
  cases hc3 : extensions.contains ".3mf" <;>
    cases hany : data.stls.any (fun f => pyEndsWith (pyLower f.name) ".3mf") <;>
    cases hcs : extensions.contains ".stl" <;>
    simp

end PrintablesDownloader

namespace PrintablesDownloader

/-- C3: in a non-dry run, a selected file whose destination already exists
is skipped: the "Already downloaded" message is printed, the Link Resolver is
never called for it (its id uniqueness taken as hypothesis), the run is not
aborted by it, and every other selected file whose destination does not exist
is still resolved. -/
theorem download_model_files_c3 (fs : String → Bool)
    (resolver : String → Except Unit (Option String))
    (oracle : String → Nat → AttemptBehavior) (data : ModelData)
    (output_root : String) (extensions : List String) (f : FileDesc)
    (hsel : f ∈ selectedFiles (effectiveExtensions extensions data.stls) data.stls)
    (hex : fs (filePath output_root f) = true)
    (hid : ∀ g ∈ data.stls, g.id = f.id → g = f)
    (hok : ∀ g ∈ data.stls, resolver g.id ≠ Except.error ()) :
    OEvent.alreadyDownloaded (filePath output_root f)
        ∈ (download_model_files fs resolver oracle data output_root extensions
            false).events ∧
    OEvent.resolveCall f.id
        ∉ (download_model_files fs resolver oracle data output_root extensions
            false).events ∧
    (download_model_files fs resolver oracle data output_root extensions
        false).aborted = false ∧
    ∀ g ∈ selectedFiles (effectiveExtensions extensions data.stls) data.stls,
      fs (filePath output_root g) = false →
      OEvent.resolveCall g.id
        ∈ (download_model_files fs resolver oracle data output_root extensions
            false).events := by
  have hsub : ∀ g, g ∈ selectedFiles (effectiveExtensions extensions data.stls)
      data.stls → g ∈ data.stls :=
    fun g hg => (List.mem_filter.mp hg).1
  have hev : (download_model_files fs resolver oracle data output_root extensions
      false).events =
        (planFiles fs output_root false
          (selectedFiles (effectiveExtensions extensions data.stls) data.stls)).2 ++
        (fetchLoop resolver oracle false
          (planFiles fs output_root false
            (selectedFiles (effectiveExtensions extensions data.stls) data.stls)).1).1 :=
    rfl
  have hremmem : ∀ p, p ∈ (planFiles fs output_root false
      (selectedFiles (effectiveExtensions extensions data.stls) data.stls)).1 →
      p.1 ∈ selectedFiles (effectiveExtensions extensions data.stls) data.stls ∧
      fs (filePath output_root p.1) = false ∧ p.2 = filePath output_root p.1 := by
    intro p hp
    rw [planFiles_remaining] at hp
    obtain ⟨g, hgfil, hgp⟩ := List.mem_map.mp hp
    have hgsel := (List.mem_filter.mp hgfil).1
    have hgpred := (List.mem_filter.mp hgfil).2
    subst hgp
    refine ⟨hgsel, ?_, rfl⟩
    simp only [Bool.not_true, Bool.and_true, Bool.not_eq_true'] at hgpred
    simpa using hgpred
  have hokrem : ∀ p ∈ (planFiles fs output_root false
      (selectedFiles (effectiveExtensions extensions data.stls) data.stls)).1,
      resolver p.1.id ≠ Except.error () :=
    fun p hp => hok p.1 (hsub p.1 (hremmem p hp).1)
  have hcomp := fetchLoop_complete resolver oracle false _ hokrem
  refine ⟨?_, ?_, ?_, ?_⟩
  · rw [hev]
    exact List.mem_append_left _ (planFiles_skip_mem fs output_root _ f hsel hex)
  · intro hmem
    rw [hev] at hmem
    rcases List.mem_append.mp hmem with hmem | hmem
    · rcases planFiles_event_cases fs output_root false _ _ hmem with
        ⟨g, _, heq⟩ | ⟨g, _, heq, _, _⟩
      · exact OEvent.noConfusion heq
      · exact OEvent.noConfusion heq
    · rcases fetchLoop_event_cases resolver oracle false _ _ hmem with
        ⟨p, hp, heq⟩ | ⟨p, hp, heq⟩ | ⟨p, hp, heq⟩ | ⟨p, hp, fe, hfe, heq⟩
      · injection heq with hpid
        have hrm := hremmem p hp
        have hpf : p.1 = f := hid p.1 (hsub p.1 hrm.1) hpid.symm
        rw [hpf] at hrm
        rw [hrm.2.1] at hex
        exact Bool.false_ne_true hex
      · exact OEvent.noConfusion heq
      · exact OEvent.noConfusion heq
      · exact OEvent.noConfusion heq
  · exact hcomp.1
  · intro g hg hgfs
    have hgrem : (g, filePath output_root g) ∈ (planFiles fs output_root false
        (selectedFiles (effectiveExtensions extensions data.stls) data.stls)).1 := by
      rw [planFiles_remaining]
      refine List.mem_map.mpr ⟨g, ?_, rfl⟩
      refine List.mem_filter.mpr ⟨hg, ?_⟩
      simp [hgfs]
    rw [hev]
    exact List.mem_append_right _ ((hcomp.2 (g, filePath output_root g) hgrem).1)

/-- Witness for C3 at a concrete run: two `.3mf` files, the first one already
on disk; its skip message appears in the trace. -/
theorem download_model_files_c3_witness :
    OEvent.alreadyDownloaded (filePath "out" ⟨"1", "a.3mf", none⟩)
      ∈ (download_model_files (fun p => p == "out/a.3mf")
          (fun _ => Except.ok (some "u")) (fun _ _ => ⟨false, true, false⟩)
          ⟨"m", [⟨"1", "a.3mf", none⟩, ⟨"2", "b.3mf", none⟩]⟩
          "out" [".3mf"] false).events :=
  (download_model_files_c3 (fun p => p == "out/a.3mf")
      (fun _ => Except.ok (some "u")) (fun _ _ => ⟨false, true, false⟩)
      ⟨"m", [⟨"1", "a.3mf", none⟩, ⟨"2", "b.3mf", none⟩]⟩
      "out" [".3mf"] ⟨"1", "a.3mf", none⟩
      (by decide) (by decide) (by decide)
      (fun g _ h => Except.noConfusion h)).1

/-- C4: over the files kept for the second loop (none of which makes the
resolver raise), a file whose link resolution returns `None` is recorded as
unavailable ("No link"), a file whose fetch returns `False` is recorded as
failed ("Could not download"), and every kept file still gets its resolver
call; the loop is never aborted by these outcomes. -/
theorem fetchLoop_c4 (resolver : String → Except Unit (Option String))
    (oracle : String → Nat → AttemptBehavior) (dry : Bool)
    (rem : List (FileDesc × String))
    (hok : ∀ p ∈ rem, resolver p.1.id ≠ Except.error ()) :
    (∀ p ∈ rem, resolver p.1.id = Except.ok none →
      OEvent.noLink p.1.name ∈ (fetchLoop resolver oracle dry rem).1) ∧
    (∀ p ∈ rem, ∀ url, resolver p.1.id = Except.ok (some url) →
      (download_file dry (oracle p.1.id) p.2).1 = false →
      OEvent.couldNotDownload p.1.name ∈ (fetchLoop resolver oracle dry rem).1) ∧
    (∀ p ∈ rem, OEvent.resolveCall p.1.id ∈ (fetchLoop resolver oracle dry rem).1) ∧
    (fetchLoop resolver oracle dry rem).2 = false := by
  have h := fetchLoop_complete resolver oracle dry rem hok
  exact ⟨fun p hp hnone => (h.2 p hp).2.1 hnone,
    fun p hp url hurl hfail => ((h.2 p hp).2.2 url hurl).2 hfail,
    fun p hp => (h.2 p hp).1,
    h.1⟩

/-- Witness for C4 at a concrete run: three kept files where the second has no
link; its "No link" message appears and all three resolver calls happen. -/
theorem fetchLoop_c4_witness :
    OEvent.noLink "b.3mf"
      ∈ (fetchLoop (fun i => Except.ok (if i == "2" then none else some "u"))
          (fun _ _ => ⟨false, true, false⟩) false
          [(⟨"1", "a.3mf", none⟩, "p1"), (⟨"2", "b.3mf", none⟩, "p2"),
            (⟨"3", "c.3mf", none⟩, "p3")]).1 :=
  (fetchLoop_c4 (fun i => Except.ok (if i == "2" then none else some "u"))
      (fun _ _ => ⟨false, true, false⟩) false
      [(⟨"1", "a.3mf", none⟩, "p1"), (⟨"2", "b.3mf", none⟩, "p2"),
        (⟨"3", "c.3mf", none⟩, "p3")]
      (fun p _ h => Except.noConfusion h)).1
    (⟨"2", "b.3mf", none⟩, "p2") (by decide) rfl

end PrintablesDownloader

namespace PrintablesDownloader

/-- Binding a successful `Except` computation just applies the continuation. -/
theorem except_bind_ok {ε α β : Type} (a : α) (f : α → Except ε β) :
    (Except.ok a : Except ε α) >>= f = f a := rfl

/-- C5 counterexample: a transport-level success whose payload reports
`ok = true` but whose `output` object has no `link` field makes
`graphql_download_url` raise a `KeyError` (the chained subscripts on line 83),
not return `None`: the claim's "returns None when the response shape lacks the
expected link field" fails. -/
theorem c5_counterexample :
    graphql_download_url (Except.ok ⟨true,
        dlResponse [("ok", Json.bool true), ("output", Json.obj [])]⟩)
      = Except.error PyErr.keyError ∧
    (Except.error PyErr.keyError : Except PyErr (Option Json)) ≠ Except.ok none := by
  constructor
  · rfl
  · intro h
    exact Except.noConfusion h

/-- C5 amended: a failing HTTP call propagates as a raised error (both a
transport error of the POST and `raise_for_status` on a bad status); a
well-shaped payload whose `getDownloadLink.ok` is falsy yields `None` without
raising; but a missing `link` field under a truthy `ok` raises (it does not
yield `None`, as the counterexample shows). -/
theorem graphql_download_url_c5_amended (e : PyErr) (s : HttpResp)
    (okv : Json) (rest : List (String × Json))
    (hok : s.ok = true)
    (hbody : s.body = dlResponse (("ok", okv) :: rest))
    (hfalsy : okv.truthy = false) :
    graphql_download_url (Except.error e) = Except.error e ∧
    (∀ t : HttpResp, t.ok = false →
      graphql_download_url (Except.ok t) = Except.error PyErr.httpError) ∧
    graphql_download_url (Except.ok s) = Except.ok none := by
  refine ⟨rfl, ?_, ?_⟩
  · intro t ht
    simp [graphql_download_url, except_bind_ok, ht, throw, throwThe,
      MonadExceptOf.throw]
  · obtain ⟨sok, sbody⟩ := s
    simp only at hok hbody
    subst hok
    subst hbody
    simp [graphql_download_url, except_bind_ok, dlResponse, Json.getItem,
      List.find?, hfalsy, pure, Except.pure]

/-- Witness for the amended C5: a concrete `ok = false` payload yields `None`. -/
theorem graphql_download_url_c5_witness :
    graphql_download_url (Except.ok ⟨true, dlResponse [("ok", Json.bool false)]⟩)
      = Except.ok none :=
  (graphql_download_url_c5_amended PyErr.connectionError
      ⟨true, dlResponse [("ok", Json.bool false)]⟩ (Json.bool false) []
      rfl rfl rfl).2.2

end PrintablesDownloader

namespace PrintablesDownloader

/-- C6: outside a dry run, when every reachable attempt fails,
`download_file` makes exactly 3 attempts and returns `False` (the exceptions
inside the loop are all caught, so the caller sees a boolean); an attempt
succeeds exactly when the GET returns, its status is a success and the write
completes; and on the first success the function returns `True` immediately,
after exactly the attempts made so far. -/
theorem download_file_c6 (oracle : Nat → AttemptBehavior) (save_path : String) :
    ((∀ i, i < 3 → attemptSuccess (oracle i) = false) →
      (download_file false oracle save_path).1 = false ∧
      (download_file false oracle save_path).2.1 = 3) ∧
    (∀ a : AttemptBehavior, attemptSuccess a = true ↔
      a.getRaises = false ∧ a.respOk = true ∧ a.writeRaises = false) ∧
    (∀ k, k < 3 → (∀ j, j < k → attemptSuccess (oracle j) = false) →
      attemptSuccess (oracle k) = true →
      (download_file false oracle save_path).1 = true ∧
      (download_file false oracle save_path).2.1 = k + 1) := by
  refine ⟨?_, ?_, ?_⟩
  · intro h
    exact dfAttempts_all_fail oracle save_path 0 3
      (fun j hj => by simpa using h j hj)
  · intro a
    obtain ⟨x, y, z⟩ := a
    cases x <;> cases y <;> cases z <;> simp [attemptSuccess]
  · intro k hk hb hs
    exact dfAttempts_first_success oracle save_path 0 3 k hk
      (fun j hj => by simpa using hb j hj) (by simpa using hs)

/-- Witness for C6: an oracle whose attempts all fail (bad status every time)
makes `download_file` report failure after exactly 3 attempts. -/
theorem download_file_c6_witness :
    (download_file false (fun _ => ⟨false, false, false⟩) "p").1 = false ∧
    (download_file false (fun _ => ⟨false, false, false⟩) "p").2.1 = 3 :=
  (download_file_c6 (fun _ => ⟨false, false, false⟩) "p").1 (fun _ _ => rfl)

end PrintablesDownloader

namespace PrintablesDownloader

/-- In a dry run, the only fetch-level effect the second loop can emit is the
"Would download" message (for a kept file's destination). -/
theorem fetchLoop_dry_fetch_events (resolver : String → Except Unit (Option String))
    (oracle : String → Nat → AttemptBehavior) (rem : List (FileDesc × String))
    (ev : OEvent) (fe : FEvent)
    (h : ev ∈ (fetchLoop resolver oracle true rem).1)
    (hev : ev = OEvent.fetch fe) :
    ∃ p ∈ rem, fe = FEvent.dryRunWould p.2 := by
  rcases fetchLoop_event_cases resolver oracle true rem ev h with
    ⟨p, _, heq⟩ | ⟨p, _, heq⟩ | ⟨p, _, heq⟩ | ⟨p, hp, fe2, hfe2, heq⟩
  · rw [hev] at heq
    exact OEvent.noConfusion heq
  · rw [hev] at heq
    exact OEvent.noConfusion heq
  · rw [hev] at heq
    exact OEvent.noConfusion heq
  · rw [hev] at heq
    injection heq with hfe
    have hfe2' : fe2 ∈ [FEvent.dryRunWould p.2] := hfe2
    rw [hfe, List.mem_singleton.mp hfe2']
    exact ⟨p, hp, rfl⟩

/-- C7 counterexample: a concrete dry run over two selected `.3mf` files
(the second without a resolvable link, every destination already present).
The trace still contains an `os.makedirs` call (which creates missing
destination directories on disk, contradicting "zero filesystem writes"), and
the selected file without a link gets no simulated success, contradicting
"a simulated success for every selected file".  The first file, although its
destination exists, is not skipped and does get the simulated success. -/
theorem c7_counterexample :
    OEvent.mkdirs "out/sub"
      ∈ (download_model_files (fun _ => true)
          (fun i => Except.ok (if i == "1" then some "u" else none))
          (fun _ _ => ⟨false, true, false⟩)
          ⟨"m", [⟨"1", "a.3mf", some "sub"⟩, ⟨"2", "b.3mf", none⟩]⟩
          "out" [".3mf"] true).events ∧
    OEvent.fetch (FEvent.dryRunWould "out/sub/a.3mf")
      ∈ (download_model_files (fun _ => true)
          (fun i => Except.ok (if i == "1" then some "u" else none))
          (fun _ _ => ⟨false, true, false⟩)
          ⟨"m", [⟨"1", "a.3mf", some "sub"⟩, ⟨"2", "b.3mf", none⟩]⟩
          "out" [".3mf"] true).events ∧
    OEvent.fetch (FEvent.dryRunWould "out/b.3mf")
      ∉ (download_model_files (fun _ => true)
          (fun i => Except.ok (if i == "1" then some "u" else none))
          (fun _ _ => ⟨false, true, false⟩)
          ⟨"m", [⟨"1", "a.3mf", some "sub"⟩, ⟨"2", "b.3mf", none⟩]⟩
          "out" [".3mf"] true).events ∧
    (⟨"2", "b.3mf", none⟩ : FileDesc)
      ∈ selectedFiles
          (effectiveExtensions [".3mf"]
            [⟨"1", "a.3mf", some "sub"⟩, ⟨"2", "b.3mf", none⟩])
          [⟨"1", "a.3mf", some "sub"⟩, ⟨"2", "b.3mf", none⟩] := by
  decide

/-- C7 amended: in a dry run the fetch step performs no network GET and no
file write, no file is skipped as already downloaded, and every selected file
whose link resolves is reported with the simulated "Would download" success
(existing destinations included, since the skip check is disabled in dry
runs); however the destination directories are still created by `os.makedirs`
for every selected file. -/
theorem download_model_files_c7_amended (fs : String → Bool)
    (resolver : String → Except Unit (Option String))
    (oracle : String → Nat → AttemptBehavior) (data : ModelData)
    (output_root : String) (extensions : List String)
    (hok : ∀ g ∈ data.stls, resolver g.id ≠ Except.error ()) :
    OEvent.fetch FEvent.netGet
      ∉ (download_model_files fs resolver oracle data output_root extensions
          true).events ∧
    (∀ p : String, OEvent.fetch (FEvent.fileWrite p)
      ∉ (download_model_files fs resolver oracle data output_root extensions
          true).events) ∧
    (∀ p : String, OEvent.alreadyDownloaded p
      ∉ (download_model_files fs resolver oracle data output_root extensions
          true).events) ∧
    (∀ f ∈ selectedFiles (effectiveExtensions extensions data.stls) data.stls,
      OEvent.mkdirs (dirPath output_root f)
        ∈ (download_model_files fs resolver oracle data output_root extensions
            true).events) ∧
    (∀ f ∈ selectedFiles (effectiveExtensions extensions data.stls) data.stls,
      ∀ url, resolver f.id = Except.ok (some url) →
      OEvent.fetch (FEvent.dryRunWould (filePath output_root f))
        ∈ (download_model_files fs resolver oracle data output_root extensions
            true).events) := by
  have hsub : ∀ g, g ∈ selectedFiles (effectiveExtensions extensions data.stls)
      data.stls → g ∈ data.stls :=
    fun g hg => (List.mem_filter.mp hg).1
  have hev : (download_model_files fs resolver oracle data output_root extensions
      true).events =
        (planFiles fs output_root true
          (selectedFiles (effectiveExtensions extensions data.stls) data.stls)).2 ++
        (fetchLoop resolver oracle true
          (planFiles fs output_root true
            (selectedFiles (effectiveExtensions extensions data.stls) data.stls)).1).1 :=
    rfl
  have hremmem : ∀ p, p ∈ (planFiles fs output_root true
      (selectedFiles (effectiveExtensions extensions data.stls) data.stls)).1 →
      p.1 ∈ selectedFiles (effectiveExtensions extensions data.stls) data.stls := by
    intro p hp
    rw [planFiles_remaining] at hp
    obtain ⟨g, hgfil, hgp⟩ := List.mem_map.mp hp
    have hgsel := (List.mem_filter.mp hgfil).1
    rw [← hgp]
    exact hgsel
  have hokrem : ∀ p ∈ (planFiles fs output_root true
      (selectedFiles (effectiveExtensions extensions data.stls) data.stls)).1,
      resolver p.1.id ≠ Except.error () :=
    fun p hp => hok p.1 (hsub p.1 (hremmem p hp))
  have hcomp := fetchLoop_complete resolver oracle true _ hokrem
  refine ⟨?_, ?_, ?_, ?_, ?_⟩
  · intro hmem
    rw [hev] at hmem
    rcases List.mem_append.mp hmem with hmem | hmem
    · rcases planFiles_event_cases fs output_root true _ _ hmem with
        ⟨g, _, heq⟩ | ⟨g, _, heq, _, _⟩
      · exact OEvent.noConfusion heq
      · exact OEvent.noConfusion heq
    · obtain ⟨p, _, heq⟩ :=
        fetchLoop_dry_fetch_events resolver oracle _ _ FEvent.netGet hmem rfl
      exact FEvent.noConfusion heq
  · intro pth hmem
    rw [hev] at hmem
    rcases List.mem_append.mp hmem with hmem | hmem
    · rcases planFiles_event_cases fs output_root true _ _ hmem with
        ⟨g, _, heq⟩ | ⟨g, _, heq, _, _⟩
      · exact OEvent.noConfusion heq
      · exact OEvent.noConfusion heq
    · obtain ⟨p, _, heq⟩ :=
        fetchLoop_dry_fetch_events resolver oracle _ _ (FEvent.fileWrite pth)
          hmem rfl
      exact FEvent.noConfusion heq
  · intro pth hmem
    rw [hev] at hmem
    rcases List.mem_append.mp hmem with hmem | hmem
    · rcases planFiles_event_cases fs output_root true _ _ hmem with
        ⟨g, _, heq⟩ | ⟨g, _, _, _, hdry⟩
      · exact OEvent.noConfusion heq
      · exact Bool.noConfusion hdry
    · rcases fetchLoop_event_cases resolver oracle true _ _ hmem with
        ⟨p, _, heq⟩ | ⟨p, _, heq⟩ | ⟨p, _, heq⟩ | ⟨p, _, fe2, _, heq⟩
      · exact OEvent.noConfusion heq
      · exact OEvent.noConfusion heq
      · exact OEvent.noConfusion heq
      · exact OEvent.noConfusion heq
  · intro f hf
    rw [hev]
    exact List.mem_append_left _ (planFiles_mkdirs_mem fs output_root true _ f hf)
  · intro f hf url hurl
    have hfrem : (f, filePath output_root f) ∈ (planFiles fs output_root true
        (selectedFiles (effectiveExtensions extensions data.stls) data.stls)).1 := by
      rw [planFiles_remaining]
      refine List.mem_map.mpr ⟨f, ?_, rfl⟩
      refine List.mem_filter.mpr ⟨hf, ?_⟩
      simp
    have hfes := ((hcomp.2 (f, filePath output_root f) hfrem).2.2 url hurl).1
    have hfe : FEvent.dryRunWould (filePath output_root f)
        ∈ (download_file true (oracle f.id) (filePath output_root f)).2.2 :=
      List.mem_singleton.mpr rfl
    rw [hev]
    exact List.mem_append_right _ (hfes _ hfe)

/-- Witness for the amended C7: in a concrete dry run (single `.3mf` file with
a folder, destination already on disk) the directory creation call is in the
trace. -/
theorem download_model_files_c7_witness :
    OEvent.mkdirs (dirPath "out" ⟨"1", "a.3mf", some "sub"⟩)
      ∈ (download_model_files (fun _ => true) (fun _ => Except.ok (some "u"))
          (fun _ _ => ⟨false, true, false⟩)
          ⟨"m", [⟨"1", "a.3mf", some "sub"⟩]⟩ "out" [".3mf"] true).events :=
  (download_model_files_c7_amended (fun _ => true)
      (fun _ => Except.ok (some "u")) (fun _ _ => ⟨false, true, false⟩)
      ⟨"m", [⟨"1", "a.3mf", some "sub"⟩]⟩ "out" [".3mf"]
      (fun g _ h => Except.noConfusion h)).2.2.2.1
    ⟨"1", "a.3mf", some "sub"⟩ (by decide)

end PrintablesDownloader
